import Mathlib

/-!
# Verification of the AIinterview session controllers

A shallow embedding of the interview- and quiz-session state machines of the
AIinterview repository (src/App.tsx with the embedded ResumeInterviewPage,
src/components/McqTestPage.tsx, src/services/geminiService.ts), together with
theorems settling the specification claims about them.

Modelling conventions:
* React `useState` fields become fields of an explicit state record; every
  event handler becomes a function from state to state, translated line by
  line from its source.
* The remote generative-AI gateway is modelled by passing the settled value of
  each network call as an explicit argument (`Option`-valued where the source
  distinguishes a resolved value from a caught rejection).  The demo-mode
  branch of geminiService (taken when no API key is configured, returning
  canned sample data) is outside every claim and is not modelled: all service
  functions below model the API-key-configured path.
* JavaScript numbers that are used as non-negative integers in the source
  (timers, indices, scores) are modelled as `Nat`.
* `Math.round(x)` applied to the exact non-negative rational `num/den * 100`
  is modelled as `(200 * num + den) / (2 * den)` (round half up).
-/

/-- Models JavaScript `s.toLowerCase()` (ASCII-relevant part). -/
def toLowerStr (s : String) : String :=
  String.mk (s.data.map Char.toLower)

/-- Models JavaScript `s.trim()`: strip whitespace from both ends. -/
def trimStr (s : String) : String :=
  String.mk (((s.data.dropWhile Char.isWhitespace).reverse.dropWhile Char.isWhitespace).reverse)

/-- Substring test: `strContains s pat` holds when `pat` occurs contiguously
inside `s`.  Models JavaScript `s.includes(pat)`. -/
def strContains (s pat : String) : Bool :=
  (List.range (s.data.length + 1)).any (fun i => pat.data.isPrefixOf (s.data.drop i))

/-- `Math.round ((num / den) * 100)` for non-negative integers with `den > 0`:
round-half-up of the exact rational. -/
def roundPct (num den : Nat) : Nat :=
  (200 * num + den) / (2 * den)

/-! ## Data model of the quiz (MCQ) mode -/

/-- A multiple-choice question as produced by `generateMcqTest`
(src/services/geminiService.ts). -/
structure MCQ where
  question : String
  options : List String
  correctAnswer : String
deriving DecidableEq, Repr

/-- The two-field narrative summary returned by the summarization calls. -/
structure PerformanceSummary where
  strengths : String
  areasForImprovement : String
deriving DecidableEq, Repr

/-- `McqState` from src/components/McqTestPage.tsx. -/
inductive McqState where
  | select | loading | inProgress | summarizing | results
deriving DecidableEq, Repr

/-- The sentinel list returned by `generateMcqTest` when the gateway call
rejects or the parsed response does not match the MCQ format
(src/services/geminiService.ts lines 255-262). -/
def mcqErrorSentinel (subject : String) : List MCQ :=
  [{ question := "An error occurred while fetching questions for " ++ subject ++ ". Please try again.",
     options := [],
     correctAnswer := "" }]

/-- `generateMcqTest` (src/services/geminiService.ts lines 212-263), API-key
configured path.  `resp = some mcqs` models a resolved gateway call whose JSON
parsed to a well-formed MCQ array; `resp = none` models every failure
(rejection, parse error, or format-check failure, all of which reach the
catch block).  The function always resolves with a list: it never rejects. -/
def generateMcqTest (subject : String) (resp : Option (List MCQ)) : List MCQ :=
  match resp with
  | some mcqs => mcqs
  | none => mcqErrorSentinel subject

/-- State of `McqTestPage` (src/components/McqTestPage.tsx lines 118-126).
Proctoring-permission fields are omitted: they gate mounting of the whole
page, not the quiz state machine. -/
structure QSt where
  selectedSubject : Option String
  questions : List MCQ
  currentQuestionIndex : Nat
  userAnswers : List String
  mcqState : McqState
  score : Nat
  performanceSummary : Option PerformanceSummary
deriving DecidableEq, Repr

/-- The initial quiz state (the `useState` initializers). -/
def initQSt : QSt :=
  { selectedSubject := none
    questions := []
    currentQuestionIndex := 0
    userAnswers := []
    mcqState := .select
    score := 0
    performanceSummary := none }

/-- `handleSelectSubject` (src/components/McqTestPage.tsx lines 128-135) with
the awaited `generateMcqTest` result passed in as `fetched`.  There is no
failure branch: whatever list arrives becomes the question list and the
session moves to `inProgress`. -/
def handleSelectSubject (s : QSt) (subject : String) (fetched : List MCQ) : QSt :=
  { s with selectedSubject := some subject
           questions := fetched
           userAnswers := List.replicate fetched.length ""
           mcqState := .inProgress }

/-- `handleSelectAnswer` (src/components/McqTestPage.tsx lines 137-141):
stores the clicked option at the current index. -/
def handleSelectAnswer (s : QSt) (option : String) : QSt :=
  { s with userAnswers := s.userAnswers.set s.currentQuestionIndex option }

/-- The score loop of `handleNextQuestion` (src/components/McqTestPage.tsx
lines 147-152): count the indices where `q.correctAnswer === userAnswers[i]`.
Out-of-range access yields `undefined`, equal to no string; this is modelled
by the `Option`-valued head. -/
def computeScore : List MCQ → List String → Nat
  | [], _ => 0
  | q :: qs, answers =>
      (if some q.correctAnswer = answers[0]? then 1 else 0) + computeScore qs answers.tail

/-- `handleNextQuestion` (src/components/McqTestPage.tsx lines 143-156). -/
def handleNextQuestion (s : QSt) : QSt :=
  if s.currentQuestionIndex < s.questions.length - 1 then
    { s with currentQuestionIndex := s.currentQuestionIndex + 1 }
  else
    { s with score := computeScore s.questions s.userAnswers
             mcqState := .summarizing }

/-- Events of the quiz session while mounted.  `selectAnswer` and `next` are
only deliverable from the `inProgress` view (the option buttons and the
next/submit button are rendered there alone), `next` moreover only while the
button is enabled, i.e. while `userAnswers[currentQuestionIndex]` is truthy
(src/components/McqTestPage.tsx line 222), and `selectAnswer` only offers the
options of the current question (line 206).  `summaryDone` models completion
of the `getSummary` effect (lines 158-167) with the settled summary value. -/
inductive QEvent where
  | selectAnswer (option : String)
  | next
  | summaryDone (summary : PerformanceSummary)

/-- One transition of the quiz session: the event handler, guarded exactly by
the conditions under which the UI can deliver the event. -/
def quizStep (s : QSt) (e : QEvent) : QSt :=
  match e with
  | .selectAnswer option =>
      if s.mcqState = .inProgress ∧
         option ∈ (s.questions.getD s.currentQuestionIndex ⟨"", [], ""⟩).options then
        handleSelectAnswer s option
      else s
  | .next =>
      if s.mcqState = .inProgress ∧ s.userAnswers.getD s.currentQuestionIndex "" ≠ "" then
        handleNextQuestion s
      else s
  | .summaryDone summary =>
      if s.mcqState = .summarizing ∧ s.selectedSubject.isSome then
        { s with performanceSummary := some summary, mcqState := .results }
      else s

/-- Percentage displayed by the MCQ `ResultsView`
(src/components/McqTestPage.tsx line 26):
`questions.length > 0 ? Math.round((score / questions.length) * 100) : 0`. -/
def mcqResultsPercentage (score : Nat) (questions : List MCQ) : Nat :=
  if questions.length > 0 then roundPct score questions.length else 0

/-! ## Data model of the spoken interview mode (ResumeInterviewPage) -/

/-- `InterviewState` (session phase) from src/App.tsx line 204. -/
inductive InterviewState where
  | upload | generating | inProgress | evaluating | summarizing | results
deriving DecidableEq, Repr

/-- `InterviewPhase` (per-question sub-phase) from src/App.tsx line 205. -/
inductive InterviewPhase where
  | thinking | recording | idle
deriving DecidableEq, Repr

/-- `InterviewResult` from src/App.tsx lines 207-212. -/
structure InterviewResult where
  question : String
  answer : String
  feedback : String
  score : Nat
deriving DecidableEq, Repr

/-- Outcome of one scoring call: feedback text plus score. -/
structure EvalOutcome where
  feedback : String
  score : Nat
deriving DecidableEq, Repr

/-- The fixed fallback value of `evaluateAnswer` on failure
(src/services/geminiService.ts lines 156-159). -/
def evalFallbackOutcome : EvalOutcome :=
  { feedback := "An error occurred while evaluating the answer. Please try again.", score := 0 }

/-- `evaluateAnswer` (src/services/geminiService.ts lines 109-161), API-key
configured path.  `resp = some r` models a resolved call whose JSON passed the
feedback/score shape check; `resp = none` models every failure path (network
rejection, parse error, shape-check throw), all of which reach the catch
block and return the fixed fallback. -/
def evaluateAnswer (resp : Option EvalOutcome) : EvalOutcome :=
  match resp with
  | some r => r
  | none => evalFallbackOutcome

/-- The sentinel lists returned by `generateQuestionsFromResume` on failure
(src/services/geminiService.ts lines 63, 99-106): HTTP 400 and all other
errors produce single-element lists starting with fixed messages; a resolved
response that is not an array produces the empty list (line 98). -/
inductive GenResponse where
  | ok (questions : List String)
  | notArray
  | err400
  | errOther

/-- `generateQuestionsFromResume` (src/services/geminiService.ts lines
56-107), API-key configured path, as a function of the settled response. -/
def generateQuestionsFromResume : GenResponse → List String
  | .ok questions => questions
  | .notArray => []
  | .err400 =>
      ["Could not process the uploaded file. It might be corrupted or in an unsupported format. Please try a different file (PDF, DOCX, TXT)."]
  | .errOther =>
      ["Could not generate questions due to an API error. Please try again later."]

/-- State of `ResumeInterviewPage` (src/App.tsx lines 351-372).  The
`useState`/`useRef` fields are carried verbatim; in addition two ghost fields
instrument the state for the claims: `terminateCalls` counts invocations of
the external `onTerminate` callback, and `writeCount` counts, per question
index, the writes committed to the answer ledger `allAnswers`.
`warningVisible` models the opacity of the proctoring warning banner
(manipulated through a DOM ref in the source).  Proctoring-permission status
is omitted: it gates mounting, not the session state machine. -/
structure ISt where
  questions : List String
  currentQuestionIndex : Nat
  interviewState : InterviewState
  error : Option String
  interviewPhase : InterviewPhase
  timer : Nat
  transcribedText : String
  allAnswers : List String
  interviewResults : List InterviewResult
  performanceSummary : Option PerformanceSummary
  isAdvancing : Bool
  recognitionError : Option String
  faceDetectionWarnings : Nat
  latestTranscript : String
  isTerminated : Bool
  terminateCalls : Nat
  warningVisible : Bool
  writeCount : List Nat
deriving DecidableEq, Repr

/-- `handleFaceOutOfFrame` (src/App.tsx lines 375-390): ignored once
terminated or outside `inProgress`; first violation raises the warning
counter to 1 and shows the banner; any further violation marks the session
terminated and invokes the external termination callback. -/
def handleFaceOutOfFrame (s : ISt) : ISt :=
  if s.isTerminated ∨ s.interviewState ≠ .inProgress then s
  else if s.faceDetectionWarnings = 0 then
    { s with faceDetectionWarnings := 1, warningVisible := true }
  else
    { s with isTerminated := true, terminateCalls := s.terminateCalls + 1 }

/-- `handleStartInterview` (src/App.tsx lines 406-424) with the awaited
`generateQuestionsFromResume` result passed in as `generated`.  Success
requires a non-empty list whose first element does not contain the failure
marker `could not` (lower-cased); otherwise the state returns to `upload`
with the first element (or a fixed message when it is absent or empty)
surfaced as the error.  The ghost `writeCount` is re-initialized alongside
the fresh ledger. -/
def handleStartInterview (s : ISt) (generated : List String) : ISt :=
  if generated.length > 0 ∧ strContains (toLowerStr (generated.headD "")) "could not" = false then
    { s with questions := generated
             allAnswers := List.replicate generated.length ""
             writeCount := List.replicate generated.length 0
             interviewState := .inProgress }
  else
    { s with error := some (if generated.headD "" = "" then
                              "AI could not generate questions from this resume."
                            else generated.headD "")
             interviewState := .upload }

/-- `handleAdvanceAfterRecording` (src/App.tsx lines 427-444): the guarded
advance routine.  No-op when the advance lock is held or the session is
terminated; otherwise it takes the lock, commits the trimmed transcript
buffer into the ledger at the current index (counted by the ghost
`writeCount`), and either increments the index or, on the last question,
moves the phase to `evaluating`. -/
def handleAdvanceAfterRecording (s : ISt) : ISt :=
  if s.isAdvancing ∨ s.isTerminated then s
  else
    let finalAnswer := trimStr s.latestTranscript
    let s1 := { s with isAdvancing := true
                       allAnswers := s.allAnswers.set s.currentQuestionIndex finalAnswer
                       writeCount := s.writeCount.set s.currentQuestionIndex
                         (s.writeCount.getD s.currentQuestionIndex 0 + 1) }
    if s.currentQuestionIndex < s.questions.length - 1 then
      { s1 with currentQuestionIndex := s.currentQuestionIndex + 1 }
    else
      { s1 with interviewState := .evaluating }

/-- The message chosen by the `rec.onerror` handler for each terminal
transcription error code (src/App.tsx lines 476-483). -/
def recErrorMessage (code : String) : String :=
  if code = "no-speech" then
    "We didn\x27t hear you. Please ensure your microphone is working and speak clearly."
  else if code = "not-allowed" ∨ code = "service-not-allowed" then
    "Microphone access was denied. Please check your browser permissions."
  else if code = "audio-capture" then
    "There was a problem with your microphone. Please check your hardware."
  else
    "An unknown microphone error occurred."

/-- The `rec.onerror` handler (src/App.tsx lines 474-486): surface the fixed
message for the code, then invoke advance. -/
def recOnError (s : ISt) (code : String) : ISt :=
  handleAdvanceAfterRecording { s with recognitionError := some (recErrorMessage code) }

/-- The `rec.onresult` handler (src/App.tsx lines 463-472) for a batch of
results whose final fragments concatenate to `finalTranscript`: append to the
transcript buffer and mirror it into the displayed text. -/
def recOnResult (s : ISt) (finalTranscript : String) : ISt :=
  { s with latestTranscript := s.latestTranscript ++ finalTranscript ++ " "
           transcribedText := s.latestTranscript ++ finalTranscript ++ " " }

/-- The per-question setup effect (src/App.tsx lines 446-455): when the
session is `inProgress` with a valid index, enter `thinking` with a 10s
countdown, clear the transcript buffer, release the advance lock, and clear
the transcription error. -/
def applySetup (s : ISt) : ISt :=
  if s.interviewState = .inProgress ∧ s.currentQuestionIndex < s.questions.length then
    { s with interviewPhase := .thinking
             timer := 10
             transcribedText := ""
             latestTranscript := ""
             isAdvancing := false
             recognitionError := none }
  else s

/-- One-second timer expiry (src/App.tsx lines 497-512): no-op outside
`inProgress` or once terminated; decrement while positive; at zero, move
`thinking` to `recording` with a 30s countdown, and invoke advance from
`recording`. -/
def timerTick (s : ISt) : ISt :=
  if s.interviewState ≠ .inProgress ∨ s.isTerminated then s
  else if 0 < s.timer then { s with timer := s.timer - 1 }
  else if s.interviewPhase = .thinking then
    { s with interviewPhase := .recording, timer := 30 }
  else if s.interviewPhase = .recording then
    handleAdvanceAfterRecording s
  else s

/-- `evaluateAllAnswers` (src/App.tsx lines 517-528): one scoring call per
question, with the committed answer or the placeholder when it is empty
(`allAnswers[i] || "[No answer recorded]"`); `oracle i` is the settled value
of the scoring call for question `i` (`none` = failure absorbed into the
gateway fallback).  Results are assembled in original question order. -/
def evaluateAllAnswers (questions allAnswers : List String)
    (oracle : Nat → Option EvalOutcome) : List InterviewResult :=
  (List.range questions.length).map (fun i =>
    let answer := if allAnswers.getD i "" = "" then "[No answer recorded]" else allAnswers.getD i ""
    let outcome := evaluateAnswer (oracle i)
    { question := questions.getD i ""
      answer := answer
      feedback := outcome.feedback
      score := outcome.score })

/-- Events deliverable to the mounted spoken-interview session.  `evalDone`
and `summaryDone` model completion of the evaluation and summarization
effects (src/App.tsx lines 516-544) with the settled gateway values. -/
inductive IEvent where
  | timerTick
  | faceAbsent
  | speechResult (finalTranscript : String)
  | speechError (code : String)
  | warningFade
  | evalDone (oracle : Nat → Option EvalOutcome)
  | summaryDone (summary : PerformanceSummary)

/-- The raw handler for each event, before React flushes effects. -/
def rawStep (s : ISt) (e : IEvent) : ISt :=
  match e with
  | .timerTick => timerTick s
  | .faceAbsent => handleFaceOutOfFrame s
  | .speechResult t => recOnResult s t
  | .speechError code => recOnError s code
  | .warningFade => { s with warningVisible := false }
  | .evalDone oracle =>
      if s.interviewState = .evaluating then
        { s with interviewResults := evaluateAllAnswers s.questions s.allAnswers oracle
                 interviewState := .summarizing }
      else s
  | .summaryDone summary =>
      if s.interviewState = .summarizing then
        { s with performanceSummary := some summary, interviewState := .results }
      else s

/-- One transition of the spoken session: run the event handler, then flush
the per-question setup effect exactly when one of its dependencies
(`interviewState`, `currentQuestionIndex`, `questions`) changed, matching the
React effect semantics of src/App.tsx lines 446-455. -/
def istep (s : ISt) (e : IEvent) : ISt :=
  let t := rawStep s e
  if t.interviewState = s.interviewState ∧ t.currentQuestionIndex = s.currentQuestionIndex ∧
     t.questions = s.questions then t
  else applySetup t

/-- The state on entry to `inProgress` for question list `qs`: the successful
start (src/App.tsx lines 412-415) followed by the initial run of the
per-question setup effect. -/
def postStart (qs : List String) : ISt :=
  { questions := qs
    currentQuestionIndex := 0
    interviewState := .inProgress
    error := none
    interviewPhase := .thinking
    timer := 10
    transcribedText := ""
    allAnswers := List.replicate qs.length ""
    interviewResults := []
    performanceSummary := none
    isAdvancing := false
    recognitionError := none
    faceDetectionWarnings := 0
    latestTranscript := ""
    isTerminated := false
    terminateCalls := 0
    warningVisible := false
    writeCount := List.replicate qs.length 0 }

/-- Total score, maximum score and displayed percentage of the spoken-mode
`ResultsView` (src/App.tsx lines 252-254). -/
def interviewPercentage (results : List InterviewResult) : Nat :=
  let totalScore := (results.map (fun r => r.score)).sum
  let maxScore := results.length * 5
  if maxScore > 0 then roundPct totalScore maxScore else 0

/-! ## List helper lemmas -/

lemma listSet_of_length_le {α : Type} (l : List α) (i : Nat) (v : α)
    (h : l.length ≤ i) : l.set i v = l := by
  induction l generalizing i with
  | nil => simp
  | cons a t ih =>
    cases i with
    | zero => simp at h
    | succ i2 => simp only [List.set]; rw [ih i2 (by simpa using h)]

lemma listGetD_set_ne {α : Type} (l : List α) (i j : Nat) (v d : α) (h : i ≠ j) :
    (l.set i v).getD j d = l.getD j d := by
  induction l generalizing i j with
  | nil => simp
  | cons a t ih =>
    cases i with
    | zero =>
      cases j with
      | zero => exact absurd rfl h
      | succ j2 => simp
    | succ i2 =>
      cases j with
      | zero => simp
      | succ j2 => simpa using ih i2 j2 (fun hh => h (by rw [hh]))

lemma listGetD_set_self {α : Type} (l : List α) (i : Nat) (v d : α) (h : i < l.length) :
    (l.set i v).getD i d = v := by
  induction l generalizing i with
  | nil => simp at h
  | cons a t ih =>
    cases i with
    | zero => simp
    | succ i2 => simpa using ih i2 (by simpa using h)

lemma listGetD_set_cases {α : Type} (l : List α) (i j : Nat) (v d : α) :
    (l.set i v).getD j d = v ∨ (l.set i v).getD j d = l.getD j d := by
  by_cases hij : i = j
  · subst hij
    by_cases hlen : i < l.length
    · exact Or.inl (listGetD_set_self l i v d hlen)
    · exact Or.inr (by rw [listSet_of_length_le l i v (Nat.le_of_not_lt hlen)])
  · exact Or.inr (listGetD_set_ne l i j v d hij)

lemma listGetD_replicate {α : Type} (n i : Nat) (a d : α) :
    (List.replicate n a).getD i d = if i < n then a else d := by
  induction n generalizing i with
  | zero => simp
  | succ n2 ih =>
    cases i with
    | zero => simp
    | succ i2 =>
      rw [List.replicate_succ, List.getD_cons_succ, ih i2]
      simp

lemma listGetElem?_succ_tail {α : Type} (l : List α) (i : Nat) :
    l[i + 1]? = l.tail[i]? := by
  cases l <;> simp

lemma listGetD_map_range {α : Type} (f : Nat → α) (n i : Nat) (d : α) (h : i < n) :
    ((List.range n).map f).getD i d = f i := by
  have h1 : ((List.range n).map f)[i]? = some (f i) := by
    rw [List.getElem?_map, List.getElem?_range h]
    rfl
  rw [List.getD_eq_getElem?_getD, h1]
  rfl

/-! ## C8: no division by zero for zero questions -/

/-- C8: when the question count is 0, the results views of both modes display
the defined default percentage 0 (the spoken-mode results list for an empty
question list is itself empty), not a division error. -/
theorem zeroQuestionsPercentageSafe (score : Nat) (answers : List String)
    (oracle : Nat → Option EvalOutcome) :
    mcqResultsPercentage score [] = 0 ∧
    interviewPercentage (evaluateAllAnswers [] answers oracle) = 0 := by
  constructor
  · simp [mcqResultsPercentage]
  · simp [interviewPercentage, evaluateAllAnswers]

/-! ## C9: MCQ generation failure yields a sentinel, not a rejection -/

/-- C9: `generateMcqTest` never rejects: any gateway failure or malformed
response resolves to a single-element list whose options array is empty and
whose correctAnswer is the empty string, and `handleSelectSubject`, having no
failure branch, transitions to `inProgress` with this sentinel as the only
question (and a one-slot answer ledger). -/
theorem mcqGenerationFailureSentinel (s : QSt) (subject : String) :
    let fetched := generateMcqTest subject none
    let t := handleSelectSubject s subject fetched
    fetched.length = 1 ∧
    (fetched.headD ⟨"", [], ""⟩).options = [] ∧
    (fetched.headD ⟨"", [], ""⟩).correctAnswer = "" ∧
    t.mcqState = .inProgress ∧
    t.questions = fetched ∧
    t.userAnswers = [""] := by
  refine ⟨rfl, rfl, rfl, rfl, rfl, rfl⟩

/-! ## C7: quiz submit computes the exact-match score -/

/-- The specification-side count for C7: the number of indices `i` at which
the stored answer string-equals question `i`'s designated correct option. -/
def matchCount (qs : List MCQ) (answers : List String) : Nat :=
  (List.range qs.length).countP
    (fun i => decide (answers[i]? = (qs[i]?).map (fun q => q.correctAnswer)))

lemma computeScore_eq_matchCount (qs : List MCQ) :
    ∀ answers, computeScore qs answers = matchCount qs answers := by
  induction qs with
  | nil => intro answers; simp [computeScore, matchCount]
  | cons q qt ih =>
    intro answers
    have hcongr :
        ∀ i ∈ List.range qt.length,
          (((fun i => decide (answers[i]? = ((q :: qt)[i]?).map (fun r => r.correctAnswer)))
              ∘ Nat.succ) i = true)
            ↔ ((fun i => decide (answers.tail[i]? = (qt[i]?).map (fun r => r.correctAnswer))) i
                = true) := by
      intro i _
      simp only [Function.comp_apply]
      rw [listGetElem?_succ_tail answers i, List.getElem?_cons_succ]
    have hA : matchCount (q :: qt) answers
        = (List.range qt.length).countP
            (fun i => decide (answers.tail[i]? = (qt[i]?).map (fun r => r.correctAnswer)))
          + (if decide (answers[0]? = ((q :: qt)[0]?).map (fun r => r.correctAnswer)) = true
             then 1 else 0) := by
      rw [matchCount, List.length_cons, List.range_succ_eq_map, List.countP_cons,
        List.countP_map, List.countP_congr hcongr]
    simp only [List.getElem?_cons_zero, Option.map_some'] at hA
    have hm : (List.range qt.length).countP
        (fun i => decide (answers.tail[i]? = (qt[i]?).map (fun r => r.correctAnswer)))
        = matchCount qt answers.tail := rfl
    rw [hm] at hA
    show (if some q.correctAnswer = answers[0]? then 1 else 0) + computeScore qt answers.tail
      = matchCount (q :: qt) answers
    rw [hA, ih answers.tail]
    by_cases h : answers[0]? = some q.correctAnswer
    · rw [if_pos h.symm, if_pos (decide_eq_true h), Nat.add_comm]
    · rw [if_neg (fun hh => h hh.symm), if_neg (by simp [h]), Nat.add_comm]

lemma computeScore_allCorrect (qs : List MCQ) :
    computeScore qs (qs.map (fun q => q.correctAnswer)) = qs.length := by
  induction qs with
  | nil => rfl
  | cons q qt ih =>
    have hstep : computeScore (q :: qt) ((q :: qt).map (fun r => r.correctAnswer))
        = (if some q.correctAnswer = (((q :: qt).map (fun r => r.correctAnswer))[0]?)
           then 1 else 0)
          + computeScore qt (((q :: qt).map (fun r => r.correctAnswer)).tail) := rfl
    rw [List.map_cons, List.getElem?_cons_zero, List.tail_cons] at hstep
    rw [List.map_cons, hstep, if_pos rfl, ih, List.length_cons, Nat.add_comm]

lemma roundPct_self (n : Nat) (h : 0 < n) : roundPct n n = 100 := by
  unfold roundPct
  exact Nat.div_eq_of_lt_le (by omega) (by omega)

/-- C7: pressing next on the last question computes the score as the number
of indices at which the stored answer string-equals the designated correct
option, and transitions to `summarizing`; when the user selected the correct
option everywhere, the score is the question count and the displayed
percentage is 100. -/
theorem quizSubmitScore (s : QSt) (h1 : s.questions ≠ [])
    (h2 : s.currentQuestionIndex = s.questions.length - 1) :
    let t := handleNextQuestion s
    t.score = matchCount s.questions s.userAnswers ∧
    t.mcqState = .summarizing ∧
    (s.userAnswers = s.questions.map (fun q => q.correctAnswer) →
      t.score = s.questions.length ∧
      mcqResultsPercentage t.score s.questions = 100) := by
  intro t
  have hguard : ¬ s.currentQuestionIndex < s.questions.length - 1 := by omega
  have ht : t = { s with score := computeScore s.questions s.userAnswers,
                         mcqState := .summarizing } := by
    simp [t, handleNextQuestion, hguard]
  have hlen : 0 < s.questions.length := List.length_pos.mpr h1
  refine ⟨?_, ?_, ?_⟩
  · rw [ht]; exact computeScore_eq_matchCount s.questions s.userAnswers
  · rw [ht]
  · intro hall
    have hscore : t.score = s.questions.length := by
      rw [ht]; show computeScore s.questions s.userAnswers = _
      rw [hall]; exact computeScore_allCorrect s.questions
    refine ⟨hscore, ?_⟩
    rw [hscore]
    unfold mcqResultsPercentage
    rw [if_pos hlen]
    exact roundPct_self _ hlen

/-- Concrete one-question quiz state used to witness C7. -/
def quizC7State : QSt :=
  { selectedSubject := some "DSA"
    questions := [⟨"Which data structure is LIFO?", ["Queue", "Stack", "List", "Tree"], "Stack"⟩]
    currentQuestionIndex := 0
    userAnswers := ["Stack"]
    mcqState := .inProgress
    score := 0
    performanceSummary := none }

/-- Witness for C7 at a concrete all-correct one-question quiz. -/
theorem quizSubmitScore_witness :
    (handleNextQuestion quizC7State).score = quizC7State.questions.length ∧
    mcqResultsPercentage (handleNextQuestion quizC7State).score quizC7State.questions = 100 :=
  (quizSubmitScore quizC7State (by decide) (by decide)).2.2 (by decide)

/-! ## C3: start-interview outcome -/

set_option maxRecDepth 8000

/-- C3: for a start request whose question generation settles to `resp`:
a non-empty list whose first element lacks the failure marker moves the
session to `inProgress` with the ledger initialized to empty strings sized to
the question count; an empty list or a marker-bearing first element returns
the session to `upload` with a surfaced error and the question list and
ledger left exactly as they were before the request (both empty on any
reachable entry to `upload`); and every failure response of the generator
(non-array, HTTP 400, other error) lands in the second case. -/
theorem startInterviewOutcome (s : ISt) (resp : GenResponse) :
    let generated := generateQuestionsFromResume resp
    let t := handleStartInterview s generated
    (generated ≠ [] ∧ strContains (toLowerStr (generated.headD "")) "could not" = false →
        t.interviewState = .inProgress ∧ t.questions = generated ∧
        t.allAnswers = List.replicate generated.length "") ∧
    (generated = [] ∨ strContains (toLowerStr (generated.headD "")) "could not" = true →
        t.interviewState = .upload ∧ t.error.isSome = true ∧
        t.questions = s.questions ∧ t.allAnswers = s.allAnswers) ∧
    (resp = .notArray ∨ resp = .err400 ∨ resp = .errOther →
        t.interviewState = .upload) := by
  intro generated t
  have hneg : generated = [] ∨
      strContains (toLowerStr (generated.headD "")) "could not" = true →
      ¬ (generated.length > 0 ∧
         strContains (toLowerStr (generated.headD "")) "could not" = false) := by
    intro hfail ⟨hl, hf⟩
    rcases hfail with h2 | h2
    · rw [h2] at hl; simp at hl
    · rw [h2] at hf; cases hf
  refine ⟨?_, ?_, ?_⟩
  · intro ⟨h1, h2⟩
    have hcond : generated.length > 0 ∧
        strContains (toLowerStr (generated.headD "")) "could not" = false :=
      ⟨List.length_pos.mpr h1, h2⟩
    simp only [t]
    rw [handleStartInterview, if_pos hcond]
    exact ⟨rfl, rfl, rfl⟩
  · intro h
    simp only [t]
    rw [handleStartInterview, if_neg (hneg h)]
    exact ⟨rfl, rfl, rfl, rfl⟩
  · intro h
    have hfail : generated = [] ∨
        strContains (toLowerStr (generated.headD "")) "could not" = true := by
      rcases h with h | h | h <;> subst h
      · exact Or.inl rfl
      · exact Or.inr (by decide)
      · exact Or.inr (by decide)
    simp only [t]
    rw [handleStartInterview, if_neg (hneg hfail)]

/-- The initial `ResumeInterviewPage` state (the `useState`/`useRef`
initializers of src/App.tsx lines 351-372), used as a concrete pre-start
fixture. -/
def uploadISt : ISt :=
  { questions := []
    currentQuestionIndex := 0
    interviewState := .upload
    error := none
    interviewPhase := .idle
    timer := 10
    transcribedText := ""
    allAnswers := []
    interviewResults := []
    performanceSummary := none
    isAdvancing := false
    recognitionError := none
    faceDetectionWarnings := 0
    latestTranscript := ""
    isTerminated := false
    terminateCalls := 0
    warningVisible := false
    writeCount := [] }

/-- Witness for C3: a successful generation enters `inProgress`; an API-error
generation returns to `upload`. -/
theorem startInterviewOutcome_witness :
    (handleStartInterview uploadISt
        (generateQuestionsFromResume (.ok ["Tell me about your projects"]))).interviewState
      = .inProgress ∧
    (handleStartInterview uploadISt
        (generateQuestionsFromResume .err400)).interviewState = .upload := by
  refine ⟨?_, ?_⟩
  · exact ((startInterviewOutcome uploadISt
      (.ok ["Tell me about your projects"])).1 ⟨by decide, by decide⟩).1
  · exact (startInterviewOutcome uploadISt .err400).2.2 (Or.inr (Or.inl rfl))

/-! ## C1: the advance lock makes double advancement a no-op -/

/-- C1: from an unlocked, unterminated `inProgress` state at question index
`i`, invoking the advance routine twice in immediate succession performs
exactly one ledger write (the ledger equals the old ledger with slot `i` set
once to the trimmed transcript buffer, and the ghost write counter for `i`
rises by exactly one) and exactly one transition (index `i + 1`, or phase
`evaluating` when `i` is the last index); the second invocation is a no-op. -/
theorem advanceLockSingleWrite (s : ISt)
    (h1 : s.interviewState = .inProgress)
    (h2 : s.isAdvancing = false) (h3 : s.isTerminated = false)
    (h4 : s.currentQuestionIndex < s.questions.length)
    (h5 : s.writeCount.length = s.questions.length) :
    let t := handleAdvanceAfterRecording s
    handleAdvanceAfterRecording t = t ∧
    t.allAnswers = s.allAnswers.set s.currentQuestionIndex (trimStr s.latestTranscript) ∧
    t.writeCount.getD s.currentQuestionIndex 0
      = s.writeCount.getD s.currentQuestionIndex 0 + 1 ∧
    (if s.currentQuestionIndex < s.questions.length - 1 then
       t.currentQuestionIndex = s.currentQuestionIndex + 1 ∧ t.interviewState = .inProgress
     else
       t.currentQuestionIndex = s.currentQuestionIndex ∧ t.interviewState = .evaluating) := by
  intro t
  have hguard : ¬ (s.isAdvancing = true ∨ s.isTerminated = true) := by
    rw [h2, h3]; simp
  have hwc : (s.writeCount.set s.currentQuestionIndex
        (s.writeCount.getD s.currentQuestionIndex 0 + 1)).getD s.currentQuestionIndex 0
      = s.writeCount.getD s.currentQuestionIndex 0 + 1 :=
    listGetD_set_self _ _ _ _ (by omega)
  by_cases hlast : s.currentQuestionIndex < s.questions.length - 1
  · have ht : t = { s with isAdvancing := true
                           allAnswers := s.allAnswers.set s.currentQuestionIndex
                             (trimStr s.latestTranscript)
                           writeCount := s.writeCount.set s.currentQuestionIndex
                             (s.writeCount.getD s.currentQuestionIndex 0 + 1)
                           currentQuestionIndex := s.currentQuestionIndex + 1 } := by
      simp only [t, handleAdvanceAfterRecording]
      rw [if_neg (by simpa using hguard), if_pos hlast]
    refine ⟨?_, ?_, ?_, ?_⟩
    · rw [handleAdvanceAfterRecording, if_pos (by rw [ht]; simp)]
    · rw [ht]
    · rw [ht]; exact hwc
    · rw [if_pos hlast, ht]; exact ⟨rfl, h1 ▸ rfl⟩
  · have ht : t = { s with isAdvancing := true
                           allAnswers := s.allAnswers.set s.currentQuestionIndex
                             (trimStr s.latestTranscript)
                           writeCount := s.writeCount.set s.currentQuestionIndex
                             (s.writeCount.getD s.currentQuestionIndex 0 + 1)
                           interviewState := .evaluating } := by
      simp only [t, handleAdvanceAfterRecording]
      rw [if_neg (by simpa using hguard), if_neg hlast]
    refine ⟨?_, ?_, ?_, ?_⟩
    · rw [handleAdvanceAfterRecording, if_pos (by rw [ht]; simp)]
    · rw [ht]
    · rw [ht]; exact hwc
    · rw [if_neg hlast, ht]; exact ⟨rfl, rfl⟩

/-- Witness for C1 at a concrete two-question session. -/
theorem advanceLockSingleWrite_witness :
    let s := postStart ["Question one", "Question two"]
    let t := handleAdvanceAfterRecording s
    handleAdvanceAfterRecording t = t ∧
    t.allAnswers = s.allAnswers.set 0 (trimStr s.latestTranscript) ∧
    t.writeCount.getD 0 0 = s.writeCount.getD 0 0 + 1 := by
  have h := advanceLockSingleWrite (postStart ["Question one", "Question two"])
    (by decide) (by decide) (by decide) (by decide) (by decide)
  exact ⟨h.1, h.2.1, h.2.2.1⟩

/-! ## C5: terminal transcription errors advance instead of aborting -/

/-- C5: a terminal transcription error with code `not-allowed` arriving while
`recording`, before the countdown reaches 0, does not abort the session: the
fixed permission-denied message is surfaced, the ledger slot for the current
question is committed immediately with whatever transcript was buffered
(possibly the empty string), and the session advances (next question, or
`evaluating` from the last question) — it never returns to `upload`. -/
theorem transcriptionErrorAdvances (s : ISt)
    (h1 : s.interviewState = .inProgress)
    (h2 : s.interviewPhase = .recording)
    (h3 : 0 < s.timer)
    (h4 : s.isAdvancing = false) (h5 : s.isTerminated = false) :
    let t := recOnError s "not-allowed"
    t.recognitionError
      = some "Microphone access was denied. Please check your browser permissions." ∧
    t.allAnswers = s.allAnswers.set s.currentQuestionIndex (trimStr s.latestTranscript) ∧
    ((t.currentQuestionIndex = s.currentQuestionIndex + 1 ∧ t.interviewState = .inProgress)
      ∨ t.interviewState = .evaluating) ∧
    t.interviewState ≠ .upload := by
  intro t
  have hmsg : recErrorMessage "not-allowed"
      = "Microphone access was denied. Please check your browser permissions." := by decide
  have hguard : ¬ ((s.isAdvancing : Prop) ∨ (s.isTerminated : Prop)) := by
    rw [h4, h5]; simp
  simp only [t, recOnError, hmsg]
  by_cases hlast : s.currentQuestionIndex < s.questions.length - 1
  · rw [handleAdvanceAfterRecording, if_neg (by simpa using hguard), if_pos hlast]
    refine ⟨rfl, rfl, Or.inl ⟨rfl, ?_⟩, ?_⟩
    · exact h1 ▸ rfl
    · show s.interviewState ≠ .upload
      rw [h1]; intro hcon; cases hcon
  · rw [handleAdvanceAfterRecording, if_neg (by simpa using hguard), if_neg hlast]
    refine ⟨rfl, rfl, Or.inr rfl, ?_⟩
    intro hcon; cases hcon

/-- The concrete state used to witness C5: question 1 of 2 is recording with
an empty transcript buffer and 12 seconds left on the countdown. -/
def recordingISt : ISt :=
  { postStart ["Question one", "Question two"] with
      interviewPhase := .recording
      timer := 12 }

/-- Witness for C5: the error advances question 1 with an empty committed
answer and surfaces the fixed permission-denied message. -/
theorem transcriptionErrorAdvances_witness :
    (recOnError recordingISt "not-allowed").recognitionError
      = some "Microphone access was denied. Please check your browser permissions." ∧
    (recOnError recordingISt "not-allowed").allAnswers
      = recordingISt.allAnswers.set recordingISt.currentQuestionIndex
          (trimStr recordingISt.latestTranscript) := by
  have h := transcriptionErrorAdvances recordingISt
    (by decide) (by decide) (by decide) (by decide) (by decide)
  exact ⟨h.1, h.2.1⟩

/-! ## C4: batch evaluation completes with fallbacks, in question order -/

/-- C4: from `evaluating`, completion of the evaluation batch (one scoring
call per question, each passed the committed answer or the placeholder when
that answer is empty) transitions to `summarizing` with exactly one evaluated
result per question, in original question order; any question whose scoring
call failed still carries the fixed fallback feedback text and score 0. -/
theorem evaluationBatchOutcome (s : ISt) (oracle : Nat → Option EvalOutcome)
    (h : s.interviewState = .evaluating) :
    let t := istep s (.evalDone oracle)
    t.interviewState = .summarizing ∧
    t.interviewResults.length = s.questions.length ∧
    (∀ i, i < s.questions.length →
      (t.interviewResults.getD i ⟨"", "", "", 0⟩).question = s.questions.getD i "" ∧
      (t.interviewResults.getD i ⟨"", "", "", 0⟩).answer
        = (if s.allAnswers.getD i "" = "" then "[No answer recorded]"
           else s.allAnswers.getD i "") ∧
      (oracle i = none →
        (t.interviewResults.getD i ⟨"", "", "", 0⟩).feedback
          = "An error occurred while evaluating the answer. Please try again." ∧
        (t.interviewResults.getD i ⟨"", "", "", 0⟩).score = 0)) := by
  intro t
  have hraw : rawStep s (.evalDone oracle)
      = { s with interviewResults := evaluateAllAnswers s.questions s.allAnswers oracle
                 interviewState := .summarizing } := by
    simp only [rawStep]
    rw [if_pos h]
  have hflushcond : ¬ ((rawStep s (.evalDone oracle)).interviewState = s.interviewState ∧
      (rawStep s (.evalDone oracle)).currentQuestionIndex = s.currentQuestionIndex ∧
      (rawStep s (.evalDone oracle)).questions = s.questions) := by
    rw [hraw, h]
    intro ⟨hcon, _⟩
    cases hcon
  have ht : t = { s with interviewResults := evaluateAllAnswers s.questions s.allAnswers oracle
                         interviewState := .summarizing } := by
    simp only [t, istep]
    rw [if_neg hflushcond, hraw, applySetup]
    rw [if_neg (by intro ⟨hcon, _⟩; cases hcon)]
  rw [ht]
  refine ⟨rfl, by simp [evaluateAllAnswers], ?_⟩
  intro i hi
  have hgot : (evaluateAllAnswers s.questions s.allAnswers oracle).getD i ⟨"", "", "", 0⟩
      = (let answer := if s.allAnswers.getD i "" = "" then "[No answer recorded]"
                       else s.allAnswers.getD i ""
         let outcome := evaluateAnswer (oracle i)
         { question := s.questions.getD i ""
           answer := answer
           feedback := outcome.feedback
           score := outcome.score }) := by
    rw [evaluateAllAnswers]
    exact listGetD_map_range _ _ _ _ hi
  rw [hgot]
  refine ⟨rfl, rfl, ?_⟩
  intro hnone
  rw [hnone]
  exact ⟨rfl, rfl⟩

/-- The concrete state used to witness C4: two questions in `evaluating`,
question 1 unanswered, with every scoring call failing. -/
def evaluatingISt : ISt :=
  { postStart ["Question one", "Question two"] with
      interviewState := .evaluating
      isAdvancing := true
      allAnswers := ["", "my answer"] }

/-- Witness for C4: with every scoring call failing, the batch still
completes into `summarizing`, and question 0 carries the placeholder answer,
the fallback feedback, and score 0. -/
theorem evaluationBatchOutcome_witness :
    (istep evaluatingISt (.evalDone (fun _ => none))).interviewState = .summarizing ∧
    ((istep evaluatingISt (.evalDone (fun _ => none))).interviewResults.getD 0
        ⟨"", "", "", 0⟩).answer = "[No answer recorded]" ∧
    ((istep evaluatingISt (.evalDone (fun _ => none))).interviewResults.getD 0
        ⟨"", "", "", 0⟩).feedback
      = "An error occurred while evaluating the answer. Please try again." ∧
    ((istep evaluatingISt (.evalDone (fun _ => none))).interviewResults.getD 0
        ⟨"", "", "", 0⟩).score = 0 := by
  have h := evaluationBatchOutcome evaluatingISt (fun _ => none) (by decide)
  have h0 := h.2.2 0 (by decide)
  have hf := h0.2.2 rfl
  exact ⟨h.1, by rw [h0.2.1]; decide, hf.1, hf.2⟩

/-! ## C2: proctoring violation policy -/

lemma istep_frozen (s : ISt) (e : IEvent)
    (h1 : s.interviewState = .inProgress) (h2 : s.isTerminated = true) :
    (istep s e).interviewState = .inProgress ∧
    (istep s e).isTerminated = true ∧
    (istep s e).interviewPhase = s.interviewPhase ∧
    (istep s e).currentQuestionIndex = s.currentQuestionIndex ∧
    (istep s e).terminateCalls = s.terminateCalls ∧
    (istep s e).questions = s.questions := by
  cases e with
  | timerTick =>
    have hraw : rawStep s .timerTick = s := by
      simp only [rawStep, timerTick]
      rw [if_pos (Or.inr h2)]
    simp only [istep, hraw]
    rw [if_pos (show _ ∧ _ ∧ _ by refine ⟨?_, ?_, ?_⟩ <;> trivial)]
    exact ⟨h1, h2, rfl, rfl, rfl, rfl⟩
  | faceAbsent =>
    have hraw : rawStep s .faceAbsent = s := by
      simp only [rawStep, handleFaceOutOfFrame]
      rw [if_pos (Or.inl h2)]
    simp only [istep, hraw]
    rw [if_pos (show _ ∧ _ ∧ _ by refine ⟨?_, ?_, ?_⟩ <;> trivial)]
    exact ⟨h1, h2, rfl, rfl, rfl, rfl⟩
  | speechResult txt =>
    have hraw : rawStep s (.speechResult txt)
        = { s with latestTranscript := s.latestTranscript ++ txt ++ " "
                   transcribedText := s.latestTranscript ++ txt ++ " " } := rfl
    simp only [istep, hraw]
    rw [if_pos (show _ ∧ _ ∧ _ by refine ⟨?_, ?_, ?_⟩ <;> trivial)]
    exact ⟨h1, h2, rfl, rfl, rfl, rfl⟩
  | speechError code =>
    have hraw : rawStep s (.speechError code)
        = { s with recognitionError := some (recErrorMessage code) } := by
      simp only [rawStep, recOnError, handleAdvanceAfterRecording]
      rw [if_pos (Or.inr (by exact h2))]
    simp only [istep, hraw]
    rw [if_pos (show _ ∧ _ ∧ _ by refine ⟨?_, ?_, ?_⟩ <;> trivial)]
    exact ⟨h1, h2, rfl, rfl, rfl, rfl⟩
  | warningFade =>
    have hraw : rawStep s .warningFade = { s with warningVisible := false } := rfl
    simp only [istep, hraw]
    rw [if_pos (show _ ∧ _ ∧ _ by refine ⟨?_, ?_, ?_⟩ <;> trivial)]
    exact ⟨h1, h2, rfl, rfl, rfl, rfl⟩
  | evalDone oracle =>
    have hraw : rawStep s (.evalDone oracle) = s := by
      simp only [rawStep]
      rw [if_neg (by rw [h1]; intro hcon; cases hcon)]
    simp only [istep, hraw]
    rw [if_pos (show _ ∧ _ ∧ _ by refine ⟨?_, ?_, ?_⟩ <;> trivial)]
    exact ⟨h1, h2, rfl, rfl, rfl, rfl⟩
  | summaryDone summary =>
    have hraw : rawStep s (.summaryDone summary) = s := by
      simp only [rawStep]
      rw [if_neg (by rw [h1]; intro hcon; cases hcon)]
    simp only [istep, hraw]
    rw [if_pos (show _ ∧ _ ∧ _ by refine ⟨?_, ?_, ?_⟩ <;> trivial)]
    exact ⟨h1, h2, rfl, rfl, rfl, rfl⟩

lemma foldl_frozen (evs : List IEvent) : ∀ (s : ISt),
    s.interviewState = .inProgress → s.isTerminated = true →
    (evs.foldl istep s).interviewState = .inProgress ∧
    (evs.foldl istep s).isTerminated = true ∧
    (evs.foldl istep s).interviewPhase = s.interviewPhase ∧
    (evs.foldl istep s).currentQuestionIndex = s.currentQuestionIndex ∧
    (evs.foldl istep s).terminateCalls = s.terminateCalls := by
  induction evs with
  | nil => intro s h1 h2; exact ⟨h1, h2, rfl, rfl, rfl⟩
  | cons e rest ih =>
    intro s h1 h2
    obtain ⟨k1, k2, k3, k4, k5, _⟩ := istep_frozen s e h1 h2
    obtain ⟨m1, m2, m3, m4, m5⟩ := ih (istep s e) k1 k2
    exact ⟨m1, m2, m3.trans k3, m4.trans k4, m5.trans k5⟩

/-- C2: while `inProgress` and not terminated, the first `faceAbsent` event
raises the violation count from 0 to 1 and only shows the warning banner —
phase, sub-phase and question index are unchanged and the session continues;
a `faceAbsent` event with the count already nonzero terminates the session
and invokes the external termination callback exactly once, and afterwards no
sequence of timer expiries or adapter/gateway event callbacks changes the
phase, the sub-phase, the question index, or the callback count. -/
theorem proctoringViolationPolicy (s : ISt)
    (h1 : s.interviewState = .inProgress) (h2 : s.isTerminated = false) :
    (s.faceDetectionWarnings = 0 →
      let t := istep s .faceAbsent
      t.faceDetectionWarnings = 1 ∧ t.warningVisible = true ∧
      t.interviewState = .inProgress ∧ t.interviewPhase = s.interviewPhase ∧
      t.currentQuestionIndex = s.currentQuestionIndex ∧
      t.isTerminated = false ∧ t.terminateCalls = s.terminateCalls) ∧
    (s.faceDetectionWarnings ≠ 0 →
      let t := istep s .faceAbsent
      t.isTerminated = true ∧ t.terminateCalls = s.terminateCalls + 1 ∧
      ∀ evs : List IEvent,
        (evs.foldl istep t).interviewState = .inProgress ∧
        (evs.foldl istep t).interviewPhase = t.interviewPhase ∧
        (evs.foldl istep t).currentQuestionIndex = t.currentQuestionIndex ∧
        (evs.foldl istep t).terminateCalls = t.terminateCalls) := by
  have hguard : ¬ ((s.isTerminated : Prop) ∨ ¬ s.interviewState = .inProgress) := by
    rw [h1, h2]; simp
  constructor
  · intro h0 t
    have hraw : rawStep s .faceAbsent
        = { s with faceDetectionWarnings := 1, warningVisible := true } := by
      simp only [rawStep, handleFaceOutOfFrame]
      rw [if_neg hguard, if_pos h0]
    have ht : t = { s with faceDetectionWarnings := 1, warningVisible := true } := by
      simp only [t, istep, hraw]
      rw [if_pos (show _ ∧ _ ∧ _ by refine ⟨?_, ?_, ?_⟩ <;> trivial)]
    rw [ht]
    exact ⟨rfl, rfl, h1, rfl, rfl, h2, rfl⟩
  · intro h0 t
    have hraw : rawStep s .faceAbsent
        = { s with isTerminated := true, terminateCalls := s.terminateCalls + 1 } := by
      simp only [rawStep, handleFaceOutOfFrame]
      rw [if_neg hguard, if_neg h0]
    have ht : t = { s with isTerminated := true
                           terminateCalls := s.terminateCalls + 1 } := by
      simp only [t, istep, hraw]
      rw [if_pos (show _ ∧ _ ∧ _ by refine ⟨?_, ?_, ?_⟩ <;> trivial)]
    have htstate : t.interviewState = .inProgress := by rw [ht]; exact h1
    have htterm : t.isTerminated = true := by rw [ht]
    refine ⟨htterm, by rw [ht], ?_⟩
    intro evs
    obtain ⟨m1, m2, m3, m4, m5⟩ := foldl_frozen evs t htstate htterm
    exact ⟨m1, m3, m4, m5⟩

/-- Concrete state used to witness C2: question 1 of 2 in progress with one
prior face-detection warning. -/
def warnedISt : ISt :=
  { postStart ["Question one", "Question two"] with faceDetectionWarnings := 1 }

/-- Witness for C2: at a fresh session the first violation only warns; at a
once-warned session the next violation terminates, invokes the callback once,
and a subsequent timer expiry changes neither phase nor index. -/
theorem proctoringViolationPolicy_witness :
    (istep (postStart ["Question one", "Question two"]) .faceAbsent).faceDetectionWarnings = 1 ∧
    (istep (postStart ["Question one", "Question two"]) .faceAbsent).isTerminated = false ∧
    (istep warnedISt .faceAbsent).isTerminated = true ∧
    (istep warnedISt .faceAbsent).terminateCalls = warnedISt.terminateCalls + 1 ∧
    ([IEvent.timerTick].foldl istep (istep warnedISt .faceAbsent)).interviewPhase
      = (istep warnedISt .faceAbsent).interviewPhase ∧
    ([IEvent.timerTick].foldl istep (istep warnedISt .faceAbsent)).currentQuestionIndex
      = (istep warnedISt .faceAbsent).currentQuestionIndex := by
  have hwarn := (proctoringViolationPolicy (postStart ["Question one", "Question two"])
    (by decide) (by decide)).1 (by decide)
  have hterm := (proctoringViolationPolicy warnedISt (by decide) (by decide)).2 (by decide)
  exact ⟨hwarn.1, hwarn.2.2.2.2.2.1, hterm.1, hterm.2.1,
    (hterm.2.2 [.timerTick]).2.1, (hterm.2.2 [.timerTick]).2.2.1⟩

/-! ## C6: ledger length invariant and write discipline -/

/-- The inductive invariant for the spoken-mode ledger discipline: the ledger
is always sized to the question count; no slot has ever been written twice;
slots at or above the current index are unwritten while `inProgress`; and the
advance lock is held whenever the session has left `inProgress`. -/
def LedgerInv (s : ISt) : Prop :=
  s.allAnswers.length = s.questions.length ∧
  (∀ i, s.writeCount.getD i 0 ≤ 1) ∧
  (s.interviewState = .inProgress →
    ∀ i, s.currentQuestionIndex ≤ i → s.writeCount.getD i 0 = 0) ∧
  (s.interviewState ≠ .inProgress → s.isAdvancing = true)

lemma advance_preserves_LedgerInv (s : ISt) (h : LedgerInv s) :
    LedgerInv (handleAdvanceAfterRecording s) ∧
    (handleAdvanceAfterRecording s).questions = s.questions := by
  obtain ⟨hlen, hle, hzero, hlock⟩ := h
  by_cases hguard : (s.isAdvancing : Prop) ∨ (s.isTerminated : Prop)
  · rw [handleAdvanceAfterRecording, if_pos hguard]
    exact ⟨⟨hlen, hle, hzero, hlock⟩, rfl⟩
  · have hadv : s.isAdvancing = false := by
      cases hb : s.isAdvancing
      · rfl
      · exact absurd (Or.inl hb) hguard
    have hstate : s.interviewState = .inProgress := by
      by_contra hcon
      rw [hlock hcon] at hadv
      cases hadv
    have hcur : s.writeCount.getD s.currentQuestionIndex 0 = 0 :=
      hzero hstate s.currentQuestionIndex (Nat.le_refl _)
    have hsetle : ∀ i, (s.writeCount.set s.currentQuestionIndex
        (s.writeCount.getD s.currentQuestionIndex 0 + 1)).getD i 0 ≤ 1 := by
      intro i
      rcases listGetD_set_cases s.writeCount s.currentQuestionIndex i
          (s.writeCount.getD s.currentQuestionIndex 0 + 1) 0 with hc | hc
      · rw [hc, hcur]
      · rw [hc]; exact hle i
    rw [handleAdvanceAfterRecording, if_neg hguard]
    by_cases hlast : s.currentQuestionIndex < s.questions.length - 1
    · rw [if_pos hlast]
      refine ⟨⟨by simpa using hlen, hsetle, ?_, ?_⟩, rfl⟩
      · intro _ i hi
        have hi2 : s.currentQuestionIndex + 1 ≤ i := hi
        have hne : s.currentQuestionIndex ≠ i := by omega
        show (s.writeCount.set s.currentQuestionIndex
            (s.writeCount.getD s.currentQuestionIndex 0 + 1)).getD i 0 = 0
        rw [listGetD_set_ne _ _ _ _ _ hne]
        exact hzero hstate i (by omega)
      · intro hcon
        exact absurd hstate (by simpa using hcon)
    · rw [if_neg hlast]
      refine ⟨⟨by simpa using hlen, hsetle, ?_, ?_⟩, rfl⟩
      · intro hcon
        cases hcon
      · intro _
        rfl

lemma applySetup_preserves_LedgerInv (s : ISt) (h : LedgerInv s) :
    LedgerInv (applySetup s) ∧ (applySetup s).questions = s.questions := by
  obtain ⟨hlen, hle, hzero, hlock⟩ := h
  rw [applySetup]
  by_cases hc : s.interviewState = .inProgress ∧ s.currentQuestionIndex < s.questions.length
  · rw [if_pos hc]
    refine ⟨⟨hlen, hle, fun _ => hzero hc.1, ?_⟩, rfl⟩
    intro hcon
    exact absurd hc.1 (by simpa using hcon)
  · rw [if_neg hc]
    exact ⟨⟨hlen, hle, hzero, hlock⟩, rfl⟩

lemma istep_preserves_LedgerInv (s : ISt) (e : IEvent) (h : LedgerInv s) :
    LedgerInv (istep s e) ∧ (istep s e).questions = s.questions := by
  have hraw : LedgerInv (rawStep s e) ∧ (rawStep s e).questions = s.questions := by
    obtain ⟨hlen, hle, hzero, hlock⟩ := h
    cases e with
    | timerTick =>
      rw [rawStep, timerTick]
      by_cases hg : ¬ s.interviewState = .inProgress ∨ (s.isTerminated : Prop)
      · rw [if_pos hg]; exact ⟨⟨hlen, hle, hzero, hlock⟩, rfl⟩
      · rw [if_neg hg]
        by_cases ht : 0 < s.timer
        · rw [if_pos ht]; exact ⟨⟨hlen, hle, hzero, hlock⟩, rfl⟩
        · rw [if_neg ht]
          by_cases hp : s.interviewPhase = .thinking
          · rw [if_pos hp]; exact ⟨⟨hlen, hle, hzero, hlock⟩, rfl⟩
          · rw [if_neg hp]
            by_cases hp2 : s.interviewPhase = .recording
            · rw [if_pos hp2]
              exact advance_preserves_LedgerInv s ⟨hlen, hle, hzero, hlock⟩
            · rw [if_neg hp2]; exact ⟨⟨hlen, hle, hzero, hlock⟩, rfl⟩
    | faceAbsent =>
      rw [rawStep, handleFaceOutOfFrame]
      by_cases hg : (s.isTerminated : Prop) ∨ ¬ s.interviewState = .inProgress
      · rw [if_pos hg]; exact ⟨⟨hlen, hle, hzero, hlock⟩, rfl⟩
      · rw [if_neg hg]
        by_cases hw : s.faceDetectionWarnings = 0
        · rw [if_pos hw]; exact ⟨⟨hlen, hle, hzero, hlock⟩, rfl⟩
        · rw [if_neg hw]; exact ⟨⟨hlen, hle, hzero, hlock⟩, rfl⟩
    | speechResult txt =>
      exact ⟨⟨hlen, hle, hzero, hlock⟩, rfl⟩
    | speechError code =>
      rw [rawStep, recOnError]
      exact advance_preserves_LedgerInv _ ⟨hlen, hle, hzero, hlock⟩
    | warningFade =>
      exact ⟨⟨hlen, hle, hzero, hlock⟩, rfl⟩
    | evalDone oracle =>
      rw [rawStep]
      by_cases hg : s.interviewState = .evaluating
      · rw [if_pos hg]
        refine ⟨⟨hlen, hle, ?_, ?_⟩, rfl⟩
        · intro hcon; cases hcon
        · intro _
          exact hlock (by rw [hg]; intro hcon; cases hcon)
      · rw [if_neg hg]; exact ⟨⟨hlen, hle, hzero, hlock⟩, rfl⟩
    | summaryDone summary =>
      rw [rawStep]
      by_cases hg : s.interviewState = .summarizing
      · rw [if_pos hg]
        refine ⟨⟨hlen, hle, ?_, ?_⟩, rfl⟩
        · intro hcon; cases hcon
        · intro _
          exact hlock (by rw [hg]; intro hcon; cases hcon)
      · rw [if_neg hg]; exact ⟨⟨hlen, hle, hzero, hlock⟩, rfl⟩
  rw [istep]
  by_cases hflush : (rawStep s e).interviewState = s.interviewState ∧
      (rawStep s e).currentQuestionIndex = s.currentQuestionIndex ∧
      (rawStep s e).questions = s.questions
  · rw [if_pos hflush]
    exact hraw
  · rw [if_neg hflush]
    have hs := applySetup_preserves_LedgerInv (rawStep s e) hraw.1
    exact ⟨hs.1, hs.2.trans hraw.2⟩

lemma postStart_LedgerInv (qs : List String) : LedgerInv (postStart qs) := by
  refine ⟨by simp [postStart], ?_, ?_, ?_⟩
  · intro i
    show (List.replicate qs.length 0).getD i 0 ≤ 1
    rw [listGetD_replicate]
    split <;> omega
  · intro _ i _
    show (List.replicate qs.length 0).getD i 0 = 0
    rw [listGetD_replicate]
    split <;> rfl
  · intro hcon
    exact absurd rfl hcon

lemma foldl_LedgerInv (evs : List IEvent) : ∀ (s : ISt), LedgerInv s →
    LedgerInv (evs.foldl istep s) := by
  induction evs with
  | nil => intro s h; exact h
  | cons e rest ih =>
    intro s h
    exact ih (istep s e) (istep_preserves_LedgerInv s e h).1

/-- C6 (amended): after initialization the ledger length always equals the
question count; in spoken mode every slot is written at most once per index
(slots at or above the current question are still unwritten); in quiz mode
the slot at the current index may be rewritten by repeated selections, but
slots at any other index are untouched by every operation and the index never
decreases, so a slot becomes read-only once the index has moved past it. -/
theorem ledgerDiscipline :
    (∀ (qs : List String) (evs : List IEvent),
       let t := evs.foldl istep (postStart qs)
       t.allAnswers.length = t.questions.length ∧
       (∀ i, t.writeCount.getD i 0 ≤ 1)) ∧
    (∀ (u : QSt) (e : QEvent),
       (quizStep u e).userAnswers.length = u.userAnswers.length ∧
       u.currentQuestionIndex ≤ (quizStep u e).currentQuestionIndex ∧
       (∀ j, j ≠ u.currentQuestionIndex →
         (quizStep u e).userAnswers.getD j "" = u.userAnswers.getD j "")) := by
  constructor
  · intro qs evs t
    have h := foldl_LedgerInv evs (postStart qs) (postStart_LedgerInv qs)
    exact ⟨h.1, h.2.1⟩
  · intro u e
    cases e with
    | selectAnswer option =>
      rw [quizStep]
      by_cases hg : u.mcqState = .inProgress ∧
          option ∈ (u.questions.getD u.currentQuestionIndex ⟨"", [], ""⟩).options
      · rw [if_pos hg]
        refine ⟨by simp [handleSelectAnswer], Nat.le_refl _, ?_⟩
        intro j hj
        exact listGetD_set_ne _ _ _ _ _ (fun hh => hj hh.symm)
      · rw [if_neg hg]
        exact ⟨rfl, Nat.le_refl _, fun _ _ => rfl⟩
    | next =>
      rw [quizStep]
      by_cases hg : u.mcqState = .inProgress ∧
          u.userAnswers.getD u.currentQuestionIndex "" ≠ ""
      · rw [if_pos hg, handleNextQuestion]
        by_cases hlast : u.currentQuestionIndex < u.questions.length - 1
        · rw [if_pos hlast]
          exact ⟨rfl, Nat.le_succ _, fun _ _ => rfl⟩
        · rw [if_neg hlast]
          exact ⟨rfl, Nat.le_refl _, fun _ _ => rfl⟩
      · rw [if_neg hg]
        exact ⟨rfl, Nat.le_refl _, fun _ _ => rfl⟩
    | summaryDone summary =>
      rw [quizStep]
      by_cases hg : u.mcqState = .summarizing ∧ u.selectedSubject.isSome
      · rw [if_pos hg]
        exact ⟨rfl, Nat.le_refl _, fun _ _ => rfl⟩
      · rw [if_neg hg]
        exact ⟨rfl, Nat.le_refl _, fun _ _ => rfl⟩

/-- Concrete quiz state used for the C6 counterexample and witness: one
question, nothing selected yet. -/
def quizC6State : QSt :=
  { selectedSubject := some "OOPS"
    questions := [⟨"Pick one", ["A", "B", "C", "D"], "A"⟩]
    currentQuestionIndex := 0
    userAnswers := [""]
    mcqState := .inProgress
    score := 0
    performanceSummary := none }

/-- Counterexample for C6 as stated: in quiz mode a ledger slot is NOT
written exactly once and is NOT read-only after its first write — selecting
option A writes slot 0, and a second user selection overwrites the same slot
with B. -/
theorem ledgerWrittenOnce_counterexample :
    (quizStep quizC6State (.selectAnswer "A")).userAnswers = ["A"] ∧
    (quizStep (quizStep quizC6State (.selectAnswer "A"))
      (.selectAnswer "B")).userAnswers = ["B"] := by
  decide

/-- Witness for C6 at concrete inputs: a spoken two-question trace that
advances once keeps the ledger sized to the question count with every write
counter at most 1, and a quiz selection leaves the slot of the other question
untouched. -/
theorem ledgerDiscipline_witness :
    (([IEvent.speechResult "hello", IEvent.timerTick].foldl istep
        (postStart ["Question one", "Question two"])).allAnswers.length
      = ([IEvent.speechResult "hello", IEvent.timerTick].foldl istep
          (postStart ["Question one", "Question two"])).questions.length) ∧
    (([IEvent.speechResult "hello", IEvent.timerTick].foldl istep
        (postStart ["Question one", "Question two"])).writeCount.getD 0 0 ≤ 1) ∧
    (quizStep quizC6State (.selectAnswer "A")).userAnswers.getD 1 ""
      = quizC6State.userAnswers.getD 1 "" := by
  have h1 := ledgerDiscipline.1 ["Question one", "Question two"]
    [IEvent.speechResult "hello", IEvent.timerTick]
  have h2 := ledgerDiscipline.2 quizC6State (.selectAnswer "A")
  exact ⟨h1.1, h1.2 0, h2.2.2 1 (by decide)⟩

/-! ## C10: quiz advancement requires a stored non-empty answer -/

/-- The inductive invariant for C10: every slot below the current index holds
a non-empty answer, and once the session has reached `summarizing` or
`results` every slot of the whole quiz does. -/
def AnswerGateInv (u : QSt) : Prop :=
  (∀ j, j < u.currentQuestionIndex → u.userAnswers.getD j "" ≠ "") ∧
  ((u.mcqState = .summarizing ∨ u.mcqState = .results) →
    ∀ j, j < u.questions.length → u.userAnswers.getD j "" ≠ "")

lemma quizStep_preserves_AnswerGateInv (u : QSt) (e : QEvent) (h : AnswerGateInv u) :
    AnswerGateInv (quizStep u e) := by
  obtain ⟨hbelow, hall⟩ := h
  cases e with
  | selectAnswer option =>
    rw [quizStep]
    by_cases hg : u.mcqState = .inProgress ∧
        option ∈ (u.questions.getD u.currentQuestionIndex ⟨"", [], ""⟩).options
    · rw [if_pos hg]
      refine ⟨?_, ?_⟩
      · intro j hj
        have hj2 : j < u.currentQuestionIndex := hj
        show (u.userAnswers.set u.currentQuestionIndex option).getD j "" ≠ ""
        rw [listGetD_set_ne _ _ _ _ _ (by omega)]
        exact hbelow j hj2
      · intro hstate
        rcases hstate with hstate | hstate
        · have hstate2 : u.mcqState = McqState.summarizing := hstate
          rw [hg.1] at hstate2; cases hstate2
        · have hstate2 : u.mcqState = McqState.results := hstate
          rw [hg.1] at hstate2; cases hstate2
    · rw [if_neg hg]; exact ⟨hbelow, hall⟩
  | next =>
    rw [quizStep]
    by_cases hg : u.mcqState = .inProgress ∧
        u.userAnswers.getD u.currentQuestionIndex "" ≠ ""
    · rw [if_pos hg, handleNextQuestion]
      by_cases hlast : u.currentQuestionIndex < u.questions.length - 1
      · rw [if_pos hlast]
        refine ⟨?_, ?_⟩
        · intro j hj
          have hj2 : j < u.currentQuestionIndex + 1 := hj
          by_cases hje : j = u.currentQuestionIndex
          · rw [hje]; exact hg.2
          · exact hbelow j (by omega)
        · intro hstate
          rcases hstate with hstate | hstate
          · have hstate2 : u.mcqState = McqState.summarizing := hstate
            rw [hg.1] at hstate2; cases hstate2
          · have hstate2 : u.mcqState = McqState.results := hstate
            rw [hg.1] at hstate2; cases hstate2
      · rw [if_neg hlast]
        refine ⟨hbelow, ?_⟩
        intro _ j hj
        have hj2 : j < u.questions.length := hj
        have hlen : u.questions.length - 1 ≤ u.currentQuestionIndex := by omega
        by_cases hje : j = u.currentQuestionIndex
        · rw [hje]; exact hg.2
        · exact hbelow j (by omega)
    · rw [if_neg hg]; exact ⟨hbelow, hall⟩
  | summaryDone summary =>
    rw [quizStep]
    by_cases hg : u.mcqState = .summarizing ∧ u.selectedSubject.isSome
    · rw [if_pos hg]
      exact ⟨hbelow, fun _ => hall (Or.inl hg.1)⟩
    · rw [if_neg hg]; exact ⟨hbelow, hall⟩

lemma foldl_AnswerGateInv (evs : List QEvent) : ∀ (u : QSt), AnswerGateInv u →
    AnswerGateInv (evs.foldl quizStep u) := by
  induction evs with
  | nil => intro u h; exact h
  | cons e rest ih =>
    intro u h
    exact ih (quizStep u e) (quizStep_preserves_AnswerGateInv u e h)

/-- C10: along any event trace of a quiz session started by selecting a
subject, every slot below the current index holds a non-empty stored answer
(so advancement away from an index happened only with a non-empty option
stored there), and whenever the session has reached the score computation
(`summarizing`, or `results` after it) every slot of the quiz is non-empty. -/
theorem quizAnswerGate (subject : String) (qs : List MCQ) (evs : List QEvent) :
    let t := evs.foldl quizStep (handleSelectSubject initQSt subject qs)
    (∀ j, j < t.currentQuestionIndex → t.userAnswers.getD j "" ≠ "") ∧
    ((t.mcqState = .summarizing ∨ t.mcqState = .results) →
      ∀ j, j < t.questions.length → t.userAnswers.getD j "" ≠ "") := by
  intro t
  have hinit : AnswerGateInv (handleSelectSubject initQSt subject qs) := by
    refine ⟨?_, ?_⟩
    · intro j hj
      exact absurd hj (by simp [handleSelectSubject, initQSt])
    · intro hstate
      rcases hstate with hstate | hstate <;> cases hstate
  exact foldl_AnswerGateInv evs _ hinit

/-- Witness for C10 at a concrete one-question trace that selects the only
option and submits: the stored answer is non-empty when the score is
computed. -/
theorem quizAnswerGate_witness :
    ([QEvent.selectAnswer "A", QEvent.next].foldl quizStep
        (handleSelectSubject initQSt "CN" [⟨"Pick", ["A", "B"], "A"⟩])).userAnswers.getD 0 ""
      ≠ "" := by
  have h := quizAnswerGate "CN" [⟨"Pick", ["A", "B"], "A"⟩]
    [QEvent.selectAnswer "A", QEvent.next]
  exact h.2 (Or.inl (by decide)) 0 (by decide)
